import Mathlib

/-!
Verification of the statistics-generation script (`scripts/generate_stats.py`).

Calendar dates are embedded as `Nat` day indices (days since an arbitrary
epoch): ordering of ISO date strings coincides with ordering of day indices,
`date + timedelta(days=1)` becomes `d + 1`, and `datetime.now().date()` is
modelled by an explicit `today : Nat` parameter.  Python's stable `sorted`
is embedded as `List.insertionSort` (a stable sort).  Python `float`
arithmetic on language percentages is embedded as exact `ℚ` arithmetic, and
`round(x, 2)` as round-half-to-even on `ℚ`.
-/

/-- A contribution-calendar day record: `{"date": ..., "contributionCount": ...}`. -/
structure DayRecord where
  date : Nat
  count : Nat
deriving Repr, DecidableEq

/-- The dictionary returned by `calculate_streaks`. -/
structure StreakResult where
  total : Nat
  current : Nat
  current_start : Option Nat
  current_end : Option Nat
  longest : Nat
  longest_start : Option Nat
  longest_end : Option Nat
deriving Repr, DecidableEq

/-- The mutable local variables of the date walk inside `calculate_streaks`
(lines 218-247 of the script). -/
structure WalkState where
  streak : Nat
  streak_start : Option Nat
  longest : Nat
  longest_start : Option Nat
  longest_end : Option Nat
deriving Repr, DecidableEq

/-- Comparison key used by `sorted(contribution_days, key=lambda d: d["date"])`. -/
def dateLe (a b : DayRecord) : Prop := a.date ≤ b.date

instance : DecidableRel dateLe := fun a b => Nat.decLe a.date b.date

instance : IsTotal DayRecord dateLe := ⟨fun a b => Nat.le_total a.date b.date⟩

instance : IsTrans DayRecord dateLe := ⟨fun _ _ _ => Nat.le_trans⟩

/-- `sorted(contribution_days, key=lambda d: d["date"])` (line 193): a stable
ascending sort by date. -/
def sortedByDate (days : List DayRecord) : List DayRecord :=
  List.insertionSort dateLe days

/-- The set `contrib_dates = {d["date"] for d in sorted_days if d["contributionCount"] > 0}`
(line 198), kept as the list of dates of positive-count records. -/
def contribDates (days : List DayRecord) : List Nat :=
  ((sortedByDate days).filter (fun r => decide (0 < r.count))).map (fun r => r.date)

/-- Membership test `date_str in contrib_dates`. -/
def activeOn (days : List DayRecord) (d : Nat) : Bool :=
  (contribDates days).contains d

/-- `min(contrib_dates)`, i.e. `sorted(contrib_dates)[0]` (lines 212-213);
never called on the empty list by the script. -/
def minimumD : List Nat → Nat
  | [] => 0
  | x :: xs => xs.foldl Nat.min x

/-- One iteration of the `while check_date <= today` loop body
(lines 230-247): `isActive` is `date_str in contrib_dates` and `d` is
`check_date`. -/
def streakStep (isActive : Bool) (d : Nat) (s : WalkState) : WalkState :=
  if isActive then
    { s with
      streak := s.streak + 1,
      streak_start := if s.streak = 0 then some d else s.streak_start }
  else if 0 < s.streak then
    if s.longest < s.streak then
      { streak := 0, streak_start := none, longest := s.streak,
        longest_start := s.streak_start, longest_end := some (d - 1) }
    else
      { s with streak := 0, streak_start := none }
  else s

/-- The whole `while` loop: fold `streakStep` over the calendar dates
`a, a+1, ..., a+n-1`, starting from the all-zero state of lines 218-226. -/
def walkDates (A : Nat → Bool) (a n : Nat) : WalkState :=
  (List.range' a n).foldl (fun s d => streakStep (A d) d s) ⟨0, none, 0, none, none⟩

/-- `calculate_streaks(contribution_days)` (lines 190-271).  The reference
date `today` models `datetime.now().date()` (line 215). -/
def calculate_streaks (contribution_days : List DayRecord) (today : Nat) : StreakResult :=
  let sorted_days := sortedByDate contribution_days
  let total_contributions := (sorted_days.map (fun r => r.count)).sum
  let contrib_dates := contribDates contribution_days
  if contrib_dates.isEmpty then
    ⟨0, 0, none, none, 0, none, none⟩
  else
    let min_date := minimumD contrib_dates
    let s := walkDates (fun d => contrib_dates.contains d) min_date (today + 1 - min_date)
    if 0 < s.streak then
      let todayActive := contrib_dates.contains today
      let longest2 := if s.longest < s.streak then s.streak else s.longest
      let longest_start2 := if s.longest < s.streak then s.streak_start else s.longest_start
      let longest_end2 :=
        if s.longest < s.streak then some (if todayActive then today else today - 1)
        else s.longest_end
      if todayActive || contrib_dates.contains (today - 1) then
        ⟨total_contributions, s.streak, s.streak_start,
          some (if todayActive then today else today - 1),
          longest2, longest_start2, longest_end2⟩
      else
        ⟨total_contributions, 0, none, none, longest2, longest_start2, longest_end2⟩
    else
      ⟨total_contributions, 0, none, none, s.longest, s.longest_start, s.longest_end⟩

/-- The merge performed by `main` (lines 725-729): `all_days = []` followed by
`all_days.extend(days)` for each fetched batch — plain concatenation. -/
def merge_batches (batches : List (List DayRecord)) : List DayRecord :=
  batches.foldl (fun acc ds => acc ++ ds) []

/-- Length of the maximal run of consecutive active dates ending at the last
walked date `a + n - 1`; this is the value of the loop variable `streak`
after the walk. -/
def trail (A : Nat → Bool) (a : Nat) : Nat → Nat
  | 0 => 0
  | n + 1 => if A (a + n) then trail A a n + 1 else 0

/-- A maximal run `[p, q]` of active dates that is closed by an inactive date
strictly inside the walked window `[a, a+n)`. -/
def ClosedRunIn (A : Nat → Bool) (a n p q : Nat) : Prop :=
  a ≤ p ∧ p ≤ q ∧ q + 1 < a + n ∧ (∀ i, p ≤ i → i ≤ q → A i = true) ∧
    A (q + 1) = false ∧ (p = a ∨ A (p - 1) = false)

/-- A maximal run of consecutive active dates `[p, q]` of a contribution
series (the spec's "streak"). -/
def IsRun (days : List DayRecord) (p q : Nat) : Prop :=
  p ≤ q ∧ (∀ i, p ≤ i → i ≤ q → activeOn days i = true) ∧
    activeOn days (q + 1) = false ∧ (p = 0 ∨ activeOn days (p - 1) = false)

/-- Invariant relating the walk state after `n` steps of the date walk to the
run structure of the active-date predicate on the walked window `[a, a+n)`:
`streak` is the length of the trailing active run, `streak_start` its first
day, and the `longest` fields describe the first longest closed run. -/
structure WalkInv (A : Nat → Bool) (a n : Nat) (s : WalkState) : Prop where
  hstreak : s.streak = trail A a n
  hstart : 0 < s.streak → s.streak_start = some (a + n - s.streak)
  hbound : ∀ p q, ClosedRunIn A a n p q → q + 1 - p ≤ s.longest
  hach : 0 < s.longest → ∃ p q, s.longest_start = some p ∧ s.longest_end = some q ∧
    ClosedRunIn A a n p q ∧ q + 1 - p = s.longest ∧
    ∀ p2 q2, ClosedRunIn A a n p2 q2 → q2 + 1 - p2 = s.longest → p ≤ p2

/-- The rank score of line 339:
`total_commits * 1 + total_prs * 2 + total_issues * 1 + total_reviews * 1 + total_stars * 1`. -/
def rank_score (commits prs issues reviews stars : Nat) : Nat :=
  commits * 1 + prs * 2 + issues * 1 + reviews * 1 + stars * 1

/-- The grade ladder of lines 340-353. -/
def rank_of_score (score : Nat) : String :=
  if 10000 < score then "S+"
  else if 5000 < score then "S"
  else if 2500 < score then "A+"
  else if 1000 < score then "A"
  else if 500 < score then "B+"
  else if 100 < score then "B"
  else "C"

/-- One `languages.edges` entry of a repository:
`{"size": ..., "node": {"name": ..., "color": ...}}`. -/
structure LangEdge where
  name : String
  size : Nat
  color : Option String
deriving Repr, DecidableEq

/-- A repository node as consumed by the script. -/
structure Repo where
  stargazerCount : Nat
  forkCount : Nat
  edges : List LangEdge
deriving Repr, DecidableEq

/-- One value of the `lang_sizes` defaultdict (line 276), tagged with its key;
the default is `{"size": 0, "color": "#858585"}`. -/
structure LangInfo where
  name : String
  size : Nat
  color : String
deriving Repr, DecidableEq

/-- One output entry of `calculate_language_stats` (lines 290-294).
The Python `float` percentage is embedded as an exact rational. -/
structure LanguageShare where
  name : String
  percentage : ℚ
  color : String
deriving Repr, DecidableEq

/-- Truthiness of `edge["node"].get("color")` (line 282): present and non-empty. -/
def colorTruthy : Option String → Bool
  | some c => !(c == "")
  | none => false

/-- Lines 281-283 applied to one existing (or freshly defaulted) dict value:
`lang_sizes[name]["size"] += edge["size"]`, and overwrite the color when the
edge carries a truthy one. -/
def applyEdge (l : LangInfo) (e : LangEdge) : LangInfo :=
  { name := l.name, size := l.size + e.size,
    color := if colorTruthy e.color then e.color.getD l.color else l.color }

/-- Process one edge against the insertion-ordered `lang_sizes` dict: update
the entry with the edge's name in place, or append the defaultdict default and
update it. -/
def insertEdge : List LangInfo → LangEdge → List LangInfo
  | [], e => [applyEdge ⟨e.name, 0, "#858585"⟩ e]
  | l :: rest, e =>
      if l.name = e.name then applyEdge l e :: rest else l :: insertEdge rest e

/-- The `lang_sizes` dict after the double loop of lines 278-283, as an
insertion-ordered association list. -/
def langSizes (repos : List Repo) : List LangInfo :=
  repos.foldl (fun acc r => r.edges.foldl insertEdge acc) []

/-- `total_size = sum(v["size"] for v in lang_sizes.values())` (line 285). -/
def totalLangSize (repos : List Repo) : Nat :=
  ((langSizes repos).map (fun l => l.size)).sum

/-- Sort relation of line 288 (`key=lambda x: -x[1]["size"]`): stable
descending by size. -/
def sizeGe (a b : LangInfo) : Prop := b.size ≤ a.size

instance : DecidableRel sizeGe := fun a b => Nat.decLe b.size a.size

/-- Python's builtin `round` to an integer: round half to even. -/
def pyRoundHE (s : ℚ) : ℤ :=
  if 1 / 2 < s - ⌊s⌋ then ⌊s⌋ + 1
  else if s - ⌊s⌋ < 1 / 2 then ⌊s⌋
  else if Even ⌊s⌋ then ⌊s⌋ else ⌊s⌋ + 1

/-- `round(pct, 2)` (line 292). -/
def pyRound2 (q : ℚ) : ℚ := (pyRoundHE (q * 100) : ℚ) / 100

/-- `calculate_language_stats(repos)` (lines 274-296). -/
def calculate_language_stats (repos : List Repo) : List LanguageShare :=
  let lang_sizes := langSizes repos
  let total_size : Nat := (lang_sizes.map (fun l => l.size)).sum
  (List.insertionSort sizeGe lang_sizes).map (fun l =>
    ⟨l.name,
      pyRound2 (if 0 < total_size then (l.size : ℚ) / (total_size : ℚ) * 100 else 0),
      l.color⟩)

/-- All language edges of all repositories, in traversal order. -/
def allEdges (repos : List Repo) : List LangEdge :=
  (repos.map (fun r => r.edges)).flatten

/-- Declarative aggregate: total byte size recorded for language `name`
across all repositories. -/
def aggSize (repos : List Repo) (name : String) : Nat :=
  (((allEdges repos).filter (fun e => decide (e.name = name))).map (fun e => e.size)).sum

/-- Byte size stored under key `name` in an association list (0 if absent,
summed if duplicated). -/
def sizeIn (acc : List LangInfo) (name : String) : Nat :=
  ((acc.filter (fun l => decide (l.name = name))).map (fun l => l.size)).sum

/-- The exact, unrounded percentage shares in output order (the spec's
"absent floating rounding" reading of lines 289-292). -/
def exactShares (repos : List Repo) : List ℚ :=
  (List.insertionSort sizeGe (langSizes repos)).map
    (fun l => (l.size : ℚ) / (totalLangSize repos : ℚ) * 100)

/-- A series with two maximal runs of equal length 2: days 1-2 and days 4-5. -/
def days4 : List DayRecord := [⟨1, 1⟩, ⟨2, 1⟩, ⟨4, 1⟩, ⟨5, 1⟩]

/-- Six languages of one byte each (counterexample input). -/
def repos6 : List Repo :=
  [⟨0, 0, [⟨"A", 1, none⟩, ⟨"B", 1, none⟩, ⟨"C", 1, none⟩,
           ⟨"D", 1, none⟩, ⟨"E", 1, none⟩, ⟨"F", 1, none⟩]⟩]

/-- Three languages of one byte each (counterexample input). -/
def repos3 : List Repo :=
  [⟨0, 0, [⟨"A", 1, none⟩, ⟨"B", 1, none⟩, ⟨"C", 1, none⟩]⟩]

/-- The spec's worked example: `{A:300, B:100}` in one repository and
`{B:100}` in a second. -/
def reposAB : List Repo :=
  [⟨0, 0, [⟨"A", 300, none⟩, ⟨"B", 100, none⟩]⟩, ⟨0, 0, [⟨"B", 100, none⟩]⟩]


/-- Thousands-separator digit grouping (applied to a reversed digit list),
for f-string formats like `{total_stars:,}`. -/
def commaGroup : List Char → List Char
  | a :: b :: c :: d :: rest => a :: b :: c :: ',' :: commaGroup (d :: rest)
  | l => l

/-- `{n:,}`: base-10 rendering with thousands separators. -/
def commaFmt (n : Nat) : String :=
  String.mk (commaGroup (toString n).data.reverse).reverse

/-- Convert a day index (days since 1970-01-01) to `(year, month, day)` by the
standard civil-from-days algorithm; models `datetime.strptime(d, "%Y-%m-%d")`
applied to the embedded day index. -/
def civilFromDays (z : Nat) : Nat × Nat × Nat :=
  let z2 : Int := (z : Int) + 719468
  let era : Int := z2 / 146097
  let doe : Int := z2 % 146097
  let yoe : Int := (doe - doe / 1460 + doe / 36524 - doe / 146096) / 365
  let y : Int := yoe + era * 400
  let doy : Int := doe - (365 * yoe + yoe / 4 - yoe / 100)
  let mp : Int := (5 * doy + 2) / 153
  let d : Int := doy - (153 * mp + 2) / 5 + 1
  let mo : Int := if mp < 10 then mp + 3 else mp - 9
  let yr : Int := if mo ≤ 2 then y + 1 else y
  (yr.toNat, mo.toNat, d.toNat)

/-- `%b`: abbreviated month name. -/
def monthAbbr (mo : Nat) : String :=
  match mo with
  | 1 => "Jan"
  | 2 => "Feb"
  | 3 => "Mar"
  | 4 => "Apr"
  | 5 => "May"
  | 6 => "Jun"
  | 7 => "Jul"
  | 8 => "Aug"
  | 9 => "Sep"
  | 10 => "Oct"
  | 11 => "Nov"
  | _ => "Dec"

/-- `%d`: zero-padded day of month. -/
def pad2 (n : Nat) : String := if n < 10 then "0" ++ toString n else toString n

/-- `format_date` (lines 506-513): render a day index as `"%b %d, %Y"`. -/
def format_date (d : Nat) : String :=
  let c := civilFromDays d
  monthAbbr c.2.1 ++ " " ++ pad2 c.2.2 ++ ", " ++ toString c.1

/-- Python float-to-string (`str(x)` inside an f-string) is modelled as the
exact rational printed in Lean notation; it is a deterministic function of
the value, which is all the rendering claims depend on. -/
def ratStr (q : ℚ) : String := toString q

/-- `{x:.1f}`: one-decimal fixed formatting via round-half-to-even. -/
def fmt1 (q : ℚ) : String :=
  let n := pyRoundHE (q * 10)
  toString (n / 10) ++ "." ++ toString ((n % 10).natAbs)

/-- Palette of the stats card (lines 301-323). -/
structure StatsPalette where
  bg : String
  border : String
  title : String
  text : String
  icon : String
deriving Repr, DecidableEq

/-- `themes.get(theme, themes["merko"])` for the stats card (lines 301-324). -/
def statsThemes (theme : String) : StatsPalette :=
  if theme = "merko" then ⟨"#0a0f0b", "#69ff97", "#69ff97", "#c9d1d9", "#69ff97"⟩
  else if theme = "dark" then ⟨"#151515", "#e4e2e2", "#fff", "#9f9f9f", "#79ff97"⟩
  else if theme = "default" then ⟨"#fffefe", "#e4e2e2", "#2f80ed", "#434d58", "#4c71f2"⟩
  else ⟨"#0a0f0b", "#69ff97", "#69ff97", "#c9d1d9", "#69ff97"⟩

/-- Palette of the top-languages card (lines 396-415). -/
structure LangsPalette where
  bg : String
  border : String
  title : String
  text : String
deriving Repr, DecidableEq

/-- `themes.get(theme, themes["merko"])` for the top-languages card
(lines 396-416). -/
def langsThemes (theme : String) : LangsPalette :=
  if theme = "merko" then ⟨"#0a0f0b", "#69ff97", "#69ff97", "#c9d1d9"⟩
  else if theme = "dark" then ⟨"#151515", "#e4e2e2", "#fff", "#9f9f9f"⟩
  else if theme = "default" then ⟨"#fffefe", "#e4e2e2", "#2f80ed", "#434d58"⟩
  else ⟨"#0a0f0b", "#69ff97", "#69ff97", "#c9d1d9"⟩

/-- Palette of the streak card (lines 471-499). -/
structure StreakPalette where
  bg : String
  border : String
  title : String
  text : String
  dates : String
  ring : String
  fire : String
deriving Repr, DecidableEq

/-- `themes.get(theme, themes["tokyonight"])` for the streak card
(lines 471-500). -/
def streakThemes (theme : String) : StreakPalette :=
  if theme = "tokyonight" then
    ⟨"#1a1b27", "#70a5fd", "#70a5fd", "#38bdae", "#bf91f3", "#70a5fd", "#eb6e17"⟩
  else if theme = "dark" then
    ⟨"#151515", "#e4e2e2", "#fff", "#9f9f9f", "#9f9f9f", "#fb8c00", "#fb8c00"⟩
  else if theme = "default" then
    ⟨"#fffefe", "#e4e2e2", "#2f80ed", "#434d58", "#434d58", "#fb8c00", "#fb8c00"⟩
  else ⟨"#1a1b27", "#70a5fd", "#70a5fd", "#38bdae", "#bf91f3", "#70a5fd", "#eb6e17"⟩

/-- The `user` dictionary consumed by `generate_stats_svg` (lines 326-336). -/
structure UserStats where
  repositories : List Repo
  totalCommitContributions : Nat
  restrictedContributionsCount : Nat
  totalPullRequestContributions : Nat
  totalIssueContributions : Nat
  totalPullRequestReviewContributions : Nat
  totalContributions : Nat
  repositoriesContributedTo : Nat
deriving Repr, DecidableEq


/-- One donut-chart segment (lines 433-437): `dashArr` renders
`"{length} {circumference - length}"` and `dashOff` renders `{-offset}`. -/
def donutSegment (color dashArr dashOff : String) : String :=
  s!"<circle cx=\"100\" cy=\"100\" r=\"70\" fill=\"none\" 
            stroke=\"{color}\" stroke-width=\"30\"
            stroke-dasharray=\"{dashArr}\"
            stroke-dashoffset=\"{dashOff}\"
            transform=\"rotate(-90, 100, 100)\"/>"

/-- One legend row of the top-languages card (lines 444-449). -/
def legendItem (yOff color nm pctS : String) : String :=
  s!"
        <g transform=\"translate(220, {yOff})\">
            <circle cx=\"6\" cy=\"6\" r=\"6\" fill=\"{color}\"/>
            <text x=\"18\" y=\"10\" class=\"lang-name\">{nm}</text>
            <text x=\"200\" y=\"10\" class=\"lang-pct\">{pctS}%</text>
        </g>"

/-- `generate_stats_svg(stats, username, theme)` (lines 299-391).  The extra
`now` argument models the ambient process clock which a Python function could
read via `datetime.now()`; this function never does, which C9 makes
explicit. -/
def generate_stats_svg (stats : UserStats) (username : String) (theme : String)
    (now : Nat) : String :=
  let t := statsThemes theme
  let total_stars := (stats.repositories.map (fun r => r.stargazerCount)).sum
  let total_forks := (stats.repositories.map (fun r => r.forkCount)).sum
  let total_commits := stats.totalCommitContributions + stats.restrictedContributionsCount
  let total_prs := stats.totalPullRequestContributions
  let total_issues := stats.totalIssueContributions
  let total_reviews := stats.totalPullRequestReviewContributions
  let total_contribs := stats.totalContributions
  let repos_contributed := stats.repositoriesContributedTo
  let score := rank_score total_commits total_prs total_issues total_reviews total_stars
  let rank := rank_of_score score
  let cBg := t.bg
  let cBorder := t.border
  let cTitle := t.title
  let cText := t.text
  let cIcon := t.icon
  let starsS := commaFmt total_stars
  let commitsS := commaFmt total_commits
  let prsS := commaFmt total_prs
  let issuesS := commaFmt total_issues
  let reposS := toString repos_contributed
  s!"<svg width=\"495\" height=\"195\" viewBox=\"0 0 495 195\" fill=\"none\" xmlns=\"http://www.w3.org/2000/svg\">
  <style>
    .header \x7b font: 600 18px \x27Segoe UI\x27, Ubuntu, Sans-Serif; fill: {cTitle}; animation: fadeInAnimation 0.8s ease-in-out forwards; \x7d
    .stat \x7b font: 600 14px \x27Segoe UI\x27, Ubuntu, Sans-Serif; fill: {cText}; \x7d
    .stagger \x7b opacity: 0; animation: fadeInAnimation 0.3s ease-in-out forwards; \x7d
    .rank-text \x7b font: 800 24px \x27Segoe UI\x27, Ubuntu, Sans-Serif; fill: {cTitle}; \x7d
    .icon \x7b fill: {cIcon}; \x7d
    @keyframes fadeInAnimation \x7b from \x7b opacity: 0; \x7d to \x7b opacity: 1; \x7d \x7d
  </style>
  <rect x=\"0.5\" y=\"0.5\" rx=\"4.5\" width=\"494\" height=\"194\" fill=\"{cBg}\" stroke=\"{cBorder}\"/>
  <g transform=\"translate(25, 35)\">
    <text class=\"header\" x=\"0\" y=\"0\">{username}\x27s GitHub Stats</text>
  </g>
  <g transform=\"translate(25, 55)\">
    <g class=\"stagger\" style=\"animation-delay: 150ms\" transform=\"translate(0, 21)\">
      <text class=\"stat\">Total Stars Earned: {starsS}</text>
    </g>
    <g class=\"stagger\" style=\"animation-delay: 300ms\" transform=\"translate(0, 42)\">
      <text class=\"stat\">Total Commits (this year): {commitsS}</text>
    </g>
    <g class=\"stagger\" style=\"animation-delay: 450ms\" transform=\"translate(0, 63)\">
      <text class=\"stat\">Total PRs: {prsS}</text>
    </g>
    <g class=\"stagger\" style=\"animation-delay: 600ms\" transform=\"translate(0, 84)\">
      <text class=\"stat\">Total Issues: {issuesS}</text>
    </g>
    <g class=\"stagger\" style=\"animation-delay: 750ms\" transform=\"translate(0, 105)\">
      <text class=\"stat\">Contributed to (last year): {reposS}</text>
    </g>
  </g>
  <g transform=\"translate(400, 100)\">
    <circle cx=\"0\" cy=\"0\" r=\"40\" fill=\"none\" stroke=\"{cIcon}\" stroke-width=\"5\" opacity=\"0.2\"/>
    <circle cx=\"0\" cy=\"0\" r=\"40\" fill=\"none\" stroke=\"{cIcon}\" stroke-width=\"5\" stroke-dasharray=\"251.2\" stroke-dashoffset=\"50\" stroke-linecap=\"round\"/>
    <text class=\"rank-text\" x=\"0\" y=\"8\" text-anchor=\"middle\">{rank}</text>
  </g>
</svg>"

/-- `generate_top_langs_svg(languages, theme, layout)` (lines 394-466); the
`layout` parameter is accepted and never used, exactly as in the source.
`now` models the ambient clock (never read). -/
def generate_top_langs_svg (languages : List LanguageShare) (theme : String)
    (layout : String) (now : Nat) : String :=
  let t := langsThemes theme
  let top_langs := languages.take 10
  let total : ℚ := (top_langs.map (fun l => l.percentage)).sum
  let circumference : ℚ := 2 * 3.14159 * 70
  let donut := (top_langs.foldl (fun (acc : String × ℚ) lang =>
      let pct : ℚ := if total > 0 then lang.percentage / total else 0
      let seglen : ℚ := circumference * pct
      (acc.1 ++ donutSegment lang.color
          (ratStr seglen ++ " " ++ ratStr (circumference - seglen)) (ratStr (-acc.2)),
        acc.2 + seglen))
    ("", 0)).1
  let legend := String.join (top_langs.enum.map (fun pr =>
    legendItem (toString (30 + pr.1 * 25)) pr.2.color pr.2.name (fmt1 pr.2.percentage)))
  let height := Nat.max 200 (30 + top_langs.length * 25 + 30)
  let heightS := toString height
  let height1S := toString (height - 1)
  let cBg := t.bg
  let cBorder := t.border
  let cTitle := t.title
  let cText := t.text
  s!"<svg width=\"450\" height=\"{heightS}\" viewBox=\"0 0 450 {heightS}\" fill=\"none\" xmlns=\"http://www.w3.org/2000/svg\">
  <style>
    .header \x7b font: 600 18px \x27Segoe UI\x27, Ubuntu, Sans-Serif; fill: {cTitle}; \x7d
    .lang-name \x7b font: 400 12px \x27Segoe UI\x27, Ubuntu, Sans-Serif; fill: {cText}; \x7d
    .lang-pct \x7b font: 600 12px \x27Segoe UI\x27, Ubuntu, Sans-Serif; fill: {cText}; \x7d
  </style>
  <rect x=\"0.5\" y=\"0.5\" rx=\"4.5\" width=\"449\" height=\"{height1S}\" fill=\"{cBg}\" stroke=\"{cBorder}\"/>
  <text class=\"header\" x=\"25\" y=\"30\">Most Used Languages</text>
  <g transform=\"translate(5, 30)\">
    {donut}
  </g>
  {legend}
</svg>"

/-- `generate_streak_svg(streaks, username, theme)` (lines 469-555); the
`username` parameter is accepted and never used, exactly as in the source.
`now` models the ambient clock (never read). -/
def generate_streak_svg (streaks : StreakResult) (username : String) (theme : String)
    (now : Nat) : String :=
  let t := streakThemes theme
  let current := streaks.current
  let longest := streaks.longest
  let total := streaks.total
  let current_range :=
    match streaks.current_start, streaks.current_end with
    | some a, some b => format_date a ++ " - " ++ format_date b
    | _, _ => ""
  let longest_range :=
    match streaks.longest_start, streaks.longest_end with
    | some a, some b => format_date a ++ " - " ++ format_date b
    | _, _ => ""
  let cBg := t.bg
  let cTitle := t.title
  let cText := t.text
  let cDates := t.dates
  let cRing := t.ring
  let totalS := commaFmt total
  let currentS := toString current
  let longestS := toString longest
  let currentRangeText := if current_range = "" then "No active streak" else current_range
  let longestRangeText := if longest_range = "" then "N/A" else longest_range
  s!"<svg width=\"495\" height=\"195\" viewBox=\"0 0 495 195\" fill=\"none\" xmlns=\"http://www.w3.org/2000/svg\">
  <style>
    .header \x7b font: 600 14px \x27Segoe UI\x27, Ubuntu, Sans-Serif; fill: {cTitle}; \x7d
    .stat \x7b font: 700 28px \x27Segoe UI\x27, Ubuntu, Sans-Serif; fill: {cText}; \x7d
    .label \x7b font: 400 12px \x27Segoe UI\x27, Ubuntu, Sans-Serif; fill: {cTitle}; \x7d
    .dates \x7b font: 400 10px \x27Segoe UI\x27, Ubuntu, Sans-Serif; fill: {cDates}; \x7d
  </style>
  <rect x=\"0.5\" y=\"0.5\" rx=\"4.5\" width=\"494\" height=\"194\" fill=\"{cBg}\" stroke=\"none\"/>
  
  <!-- Total Contributions -->
  <g transform=\"translate(50, 48)\">
    <text class=\"header\" x=\"40\" y=\"0\" text-anchor=\"middle\">Total Contributions</text>
    <text class=\"stat\" x=\"40\" y=\"40\" text-anchor=\"middle\">{totalS}</text>
    <text class=\"dates\" x=\"40\" y=\"58\" text-anchor=\"middle\">All Time</text>
  </g>
  
  <!-- Current Streak -->
  <g transform=\"translate(205, 48)\">
    <text class=\"header\" x=\"40\" y=\"0\" text-anchor=\"middle\">Current Streak</text>
    <!-- Fire icon / ring -->
    <circle cx=\"40\" cy=\"50\" r=\"35\" fill=\"none\" stroke=\"{cRing}\" stroke-width=\"4\"/>
    <text class=\"stat\" x=\"40\" y=\"58\" text-anchor=\"middle\">{currentS}</text>
    <text class=\"dates\" x=\"40\" y=\"100\" text-anchor=\"middle\">{currentRangeText}</text>
  </g>
  
  <!-- Longest Streak -->
  <g transform=\"translate(365, 48)\">
    <text class=\"header\" x=\"40\" y=\"0\" text-anchor=\"middle\">Longest Streak</text>
    <text class=\"stat\" x=\"40\" y=\"40\" text-anchor=\"middle\">{longestS}</text>
    <text class=\"dates\" x=\"40\" y=\"58\" text-anchor=\"middle\">{longestRangeText}</text>
  </g>
</svg>"

-- ===========================================================================
-- Theorems
-- ===========================================================================

theorem sortedByDate_perm (days : List DayRecord) : (sortedByDate days).Perm days :=
  List.perm_insertionSort dateLe days

theorem contribDates_eq_nil (days : List DayRecord) (h : ∀ r ∈ days, r.count = 0) :
    contribDates days = [] := by
  unfold contribDates
  have h2 : (sortedByDate days).filter (fun r => decide (0 < r.count)) = [] := by
    rw [List.filter_eq_nil_iff]
    intro r hr
    have hc := h r ((sortedByDate_perm days).mem_iff.mp hr)
    simp [hc]
  rw [h2]
  rfl

/-- C8: a series with no positive-count day (the empty series included) yields
the all-zero `StreakResult` with no date ranges; the function returns normally
rather than raising. -/
theorem C8_no_positive_day_zero_result (days : List DayRecord) (today : Nat)
    (h : ∀ r ∈ days, r.count = 0) :
    calculate_streaks days today = ⟨0, 0, none, none, 0, none, none⟩ := by
  unfold calculate_streaks
  rw [contribDates_eq_nil days h]
  rfl

/-- Witness for C8 at a concrete input: a one-record series whose only record
has count 0. -/
theorem C8_no_positive_day_zero_result_witness :
    calculate_streaks [⟨3, 0⟩] 5 = ⟨0, 0, none, none, 0, none, none⟩ :=
  C8_no_positive_day_zero_result [⟨3, 0⟩] 5 (by decide)

/-- C2: for every input list of day records and every reference date, the
returned `StreakResult` satisfies `longest ≥ current`. -/
theorem C2_longest_ge_current (days : List DayRecord) (today : Nat) :
    (calculate_streaks days today).current ≤ (calculate_streaks days today).longest := by
  unfold calculate_streaks
  dsimp only
  split
  · exact Nat.le_refl 0
  · split
    next hs =>
      split_ifs <;> (dsimp only; omega)
    next hs => exact Nat.zero_le _

/-- C1 (failing-input evaluation): a series active exactly on `today - 1`
(day 9, with `today = 10`) comes back with `current = 0` — the walk through
the inactive `today` closes the run before the grace-period test of line 258
can see it — while the spec requires `current = 1` ending at yesterday. -/
theorem C1_yesterday_only_run_gives_current_zero :
    (calculate_streaks [⟨9, 1⟩] 10).current = 0 ∧
    (calculate_streaks [⟨9, 1⟩] 10).longest = 1 ∧
    (calculate_streaks [⟨9, 1⟩] 10).current_end = none := by decide

/-- C7: the rank score is `commits + 2·prs + issues + reviews + stars`, and
the grade is determined by the strict thresholds
`>10000 → S+`, `>5000 → S`, `>2500 → A+`, `>1000 → A`, `>500 → B+`,
`>100 → B`, otherwise `C`. -/
theorem C7_rank_score_and_grade (c p i r s sc : Nat) :
    rank_score c p i r s = c + 2 * p + i + r + s ∧
    (10000 < sc → rank_of_score sc = "S+") ∧
    (5000 < sc → sc ≤ 10000 → rank_of_score sc = "S") ∧
    (2500 < sc → sc ≤ 5000 → rank_of_score sc = "A+") ∧
    (1000 < sc → sc ≤ 2500 → rank_of_score sc = "A") ∧
    (500 < sc → sc ≤ 1000 → rank_of_score sc = "B+") ∧
    (100 < sc → sc ≤ 500 → rank_of_score sc = "B") ∧
    (sc ≤ 100 → rank_of_score sc = "C") := by
  refine ⟨by unfold rank_score; ring, ?_, ?_, ?_, ?_, ?_, ?_, ?_⟩ <;>
    · intros
      unfold rank_of_score
      split_ifs <;> first | rfl | omega

/-- Witness for C7 at concrete counters and a concrete score. -/
theorem C7_rank_score_and_grade_witness :
    rank_score 10 5 3 2 1 = 10 + 2 * 5 + 3 + 2 + 1 ∧ rank_of_score 600 = "B+" :=
  ⟨(C7_rank_score_and_grade 10 5 3 2 1 600).1,
    (C7_rank_score_and_grade 10 5 3 2 1 600).2.2.2.2.2.1 (by decide) (by decide)⟩

theorem pyRoundHE_abs_le (s : ℚ) : |(pyRoundHE s : ℚ) - s| ≤ 1 / 2 := by
  unfold pyRoundHE
  have h1 : (⌊s⌋ : ℚ) ≤ s := Int.floor_le s
  have h2 : s < ⌊s⌋ + 1 := Int.lt_floor_add_one s
  split_ifs with ha hb hc <;> rw [abs_le] <;> push_cast <;> constructor <;> linarith

theorem pyRound2_abs_le (q : ℚ) : |pyRound2 q - q| ≤ 1 / 200 := by
  unfold pyRound2
  have h := pyRoundHE_abs_le (q * 100)
  rw [abs_le] at h ⊢
  constructor <;> linarith [h.1, h.2]

theorem pyRound2_zero : pyRound2 0 = 0 := by
  unfold pyRound2 pyRoundHE
  norm_num

theorem sum_pyRound2_close (l : List ℚ) :
    |(l.map pyRound2).sum - l.sum| ≤ (l.length : ℚ) * (1 / 200) := by
  induction l with
  | nil => simp
  | cons x xs ih =>
      have hx := pyRound2_abs_le x
      simp only [List.map_cons, List.sum_cons, List.length_cons]
      have step : |pyRound2 x + (xs.map pyRound2).sum - (x + xs.sum)|
          ≤ |pyRound2 x - x| + |(xs.map pyRound2).sum - xs.sum| := by
        have := abs_add (pyRound2 x - x) ((xs.map pyRound2).sum - xs.sum)
        calc |pyRound2 x + (xs.map pyRound2).sum - (x + xs.sum)|
            = |(pyRound2 x - x) + ((xs.map pyRound2).sum - xs.sum)| := by ring_nf
          _ ≤ _ := this
      push_cast
      linarith [step, hx, ih]

theorem langSizes_sum_cast (L : List LangInfo) (T : ℚ) :
    (L.map (fun l => (l.size : ℚ) / T * 100)).sum
      = (((L.map (fun l => l.size)).sum : ℕ) : ℚ) / T * 100 := by
  induction L with
  | nil => simp
  | cons x xs ih =>
      simp only [List.map_cons, List.sum_cons, ih]
      push_cast
      ring

theorem exactShares_sum (repos : List Repo) (h : 0 < totalLangSize repos) :
    (exactShares repos).sum = 100 := by
  unfold exactShares
  have hperm : (List.insertionSort sizeGe (langSizes repos)).Perm (langSizes repos) :=
    List.perm_insertionSort _ _
  rw [((hperm.map _).sum_eq : _), langSizes_sum_cast]
  have hT : ((totalLangSize repos : ℚ)) ≠ 0 := by
    exact_mod_cast Nat.pos_iff_ne_zero.mp h
  rw [show ((langSizes repos).map (fun l => l.size)).sum = totalLangSize repos from rfl]
  rw [div_self hT, one_mul]

theorem langstats_percentages (repos : List Repo) (h : 0 < totalLangSize repos) :
    (calculate_language_stats repos).map (fun s => s.percentage)
      = (exactShares repos).map pyRound2 := by
  unfold calculate_language_stats exactShares
  dsimp only
  rw [List.map_map, List.map_map]
  refine List.map_congr_left fun l _ => ?_
  have h' : 0 < ((langSizes repos).map (fun l => l.size)).sum := h
  dsimp only [Function.comp]
  rw [if_pos h']
  rfl

theorem langstats_length (repos : List Repo) :
    (calculate_language_stats repos).length = (exactShares repos).length := by
  unfold calculate_language_stats exactShares
  simp

/-- C5 (amended): the unrounded shares sum to exactly 100 when the total size
is positive, and the displayed (2-decimal rounded) percentages sum to within
`k/200` of 100 for `k` languages; when the total size is 0 the percentage sum
is 0.  (As stated — "sum ≤ 100" — the claim fails; see the counterexample.) -/
theorem C5_percentage_sum (repos : List Repo) :
    (0 < totalLangSize repos →
      (exactShares repos).sum = 100 ∧
      |((calculate_language_stats repos).map (fun s => s.percentage)).sum - 100|
        ≤ ((calculate_language_stats repos).length : ℚ) * (1 / 200)) ∧
    (totalLangSize repos = 0 →
      ((calculate_language_stats repos).map (fun s => s.percentage)).sum = 0) := by
  constructor
  · intro h
    refine ⟨exactShares_sum repos h, ?_⟩
    rw [langstats_percentages repos h, langstats_length repos]
    have := sum_pyRound2_close (exactShares repos)
    rw [exactShares_sum repos h] at this
    simpa using this
  · intro h
    unfold calculate_language_stats
    dsimp only
    have h' : ¬ 0 < ((langSizes repos).map (fun l => l.size)).sum := by
      rw [show ((langSizes repos).map (fun l => l.size)).sum = totalLangSize repos from rfl, h]
      omega
    rw [List.map_map]
    apply List.sum_eq_zero
    intro x hx
    rcases List.mem_map.mp hx with ⟨l, _, rfl⟩
    dsimp only [Function.comp]
    rw [if_neg h', pyRound2_zero]

theorem pyRound2_one_sixth : pyRound2 ((1 : ℚ) / 6 * 100) = 1667 / 100 := by
  unfold pyRound2 pyRoundHE
  have hf : ⌊(1 : ℚ) / 6 * 100 * 100⌋ = 1666 := by
    norm_num [Int.floor_eq_iff]
  rw [hf, if_pos (by norm_num)]
  norm_num

/-- C5 counterexample: six languages of one byte each produce six displayed
percentages of 16.67 which sum to 100.02 > 100, refuting "percentages sum to
at most 100". -/
theorem C5_six_equal_languages_sum_exceeds_100 :
    100 < ((calculate_language_stats repos6).map (fun s => s.percentage)).sum := by
  rw [langstats_percentages repos6 (by decide)]
  have h1 : List.insertionSort sizeGe (langSizes repos6) =
      [⟨"A", 1, "#858585"⟩, ⟨"B", 1, "#858585"⟩, ⟨"C", 1, "#858585"⟩,
       ⟨"D", 1, "#858585"⟩, ⟨"E", 1, "#858585"⟩, ⟨"F", 1, "#858585"⟩] := by decide
  have h2 : totalLangSize repos6 = 6 := by decide
  unfold exactShares
  rw [h1, h2]
  simp only [List.map_cons, List.map_nil, List.sum_cons, List.sum_nil,
    Nat.cast_one, Nat.cast_ofNat]
  rw [pyRound2_one_sixth]
  norm_num

/-- Witness for C5 at the six-language input. -/
theorem C5_percentage_sum_witness :
    (exactShares repos6).sum = 100 ∧
    |((calculate_language_stats repos6).map (fun s => s.percentage)).sum - 100|
      ≤ ((calculate_language_stats repos6).length : ℚ) * (1 / 200) :=
  (C5_percentage_sum repos6).1 (by decide)

theorem sizeIn_cons (l : LangInfo) (rest : List LangInfo) (name : String) :
    sizeIn (l :: rest) name = (if l.name = name then l.size else 0) + sizeIn rest name := by
  unfold sizeIn
  rw [List.filter_cons]
  by_cases h : l.name = name
  · simp [h]
  · simp [h]

theorem sizeIn_nil (name : String) : sizeIn [] name = 0 := rfl

theorem sizeIn_insertEdge (acc : List LangInfo) (e : LangEdge) (name : String) :
    sizeIn (insertEdge acc e) name
      = sizeIn acc name + (if e.name = name then e.size else 0) := by
  induction acc with
  | nil =>
      rw [show insertEdge [] e = [applyEdge ⟨e.name, 0, "#858585"⟩ e] from rfl, sizeIn_cons]
      show (if e.name = name then 0 + e.size else 0) + sizeIn [] name
        = sizeIn [] name + (if e.name = name then e.size else 0)
      rw [sizeIn_nil]
      split_ifs <;> omega
  | cons l rest ih =>
      unfold insertEdge
      by_cases hle : l.name = e.name
      · rw [if_pos hle, sizeIn_cons, sizeIn_cons]
        show (if l.name = name then l.size + e.size else 0) + sizeIn rest name
          = (if l.name = name then l.size else 0) + sizeIn rest name
            + (if e.name = name then e.size else 0)
        rw [hle]
        split_ifs <;> omega
      · rw [if_neg hle, sizeIn_cons, sizeIn_cons, ih]
        omega

theorem sizeIn_foldl_edges (es : List LangEdge) (acc : List LangInfo) (name : String) :
    sizeIn (es.foldl insertEdge acc) name
      = sizeIn acc name
        + ((es.filter (fun e => decide (e.name = name))).map (fun e => e.size)).sum := by
  induction es generalizing acc with
  | nil => simp
  | cons e es ih =>
      rw [List.foldl_cons, ih, sizeIn_insertEdge, List.filter_cons]
      by_cases h : e.name = name
      · simp [h]
        omega
      · simp [h]

theorem allEdges_cons (r : Repo) (rs : List Repo) :
    allEdges (r :: rs) = r.edges ++ allEdges rs := by
  simp [allEdges]

theorem sizeIn_foldl_repos (rs : List Repo) (acc : List LangInfo) (name : String) :
    sizeIn (rs.foldl (fun a r => r.edges.foldl insertEdge a) acc) name
      = sizeIn acc name
        + (((allEdges rs).filter (fun e => decide (e.name = name))).map (fun e => e.size)).sum := by
  induction rs generalizing acc with
  | nil => simp [allEdges]
  | cons r rs ih =>
      rw [List.foldl_cons, ih, sizeIn_foldl_edges, allEdges_cons,
        List.filter_append, List.map_append, List.sum_append]
      omega

theorem sizeIn_langSizes (repos : List Repo) (name : String) :
    sizeIn (langSizes repos) name = aggSize repos name := by
  unfold langSizes aggSize
  rw [sizeIn_foldl_repos, sizeIn_nil, Nat.zero_add]

theorem mem_insertEdge_names (acc : List LangInfo) (e : LangEdge) (l : LangInfo)
    (hl : l ∈ insertEdge acc e) : l.name = e.name ∨ ∃ l0 ∈ acc, l.name = l0.name := by
  induction acc with
  | nil =>
      left
      rcases List.mem_singleton.mp hl with rfl
      rfl
  | cons x rest ih =>
      unfold insertEdge at hl
      by_cases h : x.name = e.name
      · rw [if_pos h] at hl
        rcases List.mem_cons.mp hl with h1 | h1
        · left
          rw [h1]
          exact h
        · right
          exact ⟨l, List.mem_cons_of_mem x h1, rfl⟩
      · rw [if_neg h] at hl
        rcases List.mem_cons.mp hl with h1 | h1
        · right
          exact ⟨x, List.mem_cons_self x rest, by rw [h1]⟩
        · rcases ih h1 with h2 | ⟨l0, hl0, h3⟩
          · left; exact h2
          · right; exact ⟨l0, List.mem_cons_of_mem x hl0, h3⟩

theorem pairwise_insertEdge (acc : List LangInfo) (e : LangEdge)
    (h : acc.Pairwise (fun a b => a.name ≠ b.name)) :
    (insertEdge acc e).Pairwise (fun a b => a.name ≠ b.name) := by
  induction acc with
  | nil => simp [insertEdge]
  | cons x rest ih =>
      rcases List.pairwise_cons.mp h with ⟨hx, hrest⟩
      unfold insertEdge
      by_cases hxe : x.name = e.name
      · rw [if_pos hxe]
        refine List.pairwise_cons.mpr ⟨?_, hrest⟩
        intro b hb
        show (applyEdge x e).name ≠ b.name
        exact hx b hb
      · rw [if_neg hxe]
        refine List.pairwise_cons.mpr ⟨?_, ih hrest⟩
        intro b hb
        rcases mem_insertEdge_names rest e b hb with h1 | ⟨l0, hl0, h2⟩
        · intro hc
          rw [h1] at hc
          exact hxe hc
        · intro hc
          rw [h2] at hc
          exact hx l0 hl0 hc

theorem pairwise_foldl_edges (es : List LangEdge) (acc : List LangInfo)
    (h : acc.Pairwise (fun a b => a.name ≠ b.name)) :
    (es.foldl insertEdge acc).Pairwise (fun a b => a.name ≠ b.name) := by
  induction es generalizing acc with
  | nil => exact h
  | cons e es ih => exact ih _ (pairwise_insertEdge acc e h)

theorem pairwise_foldl_repos (rs : List Repo) (acc : List LangInfo)
    (h : acc.Pairwise (fun a b => a.name ≠ b.name)) :
    (rs.foldl (fun a r => r.edges.foldl insertEdge a) acc).Pairwise
      (fun a b => a.name ≠ b.name) := by
  induction rs generalizing acc with
  | nil => exact h
  | cons r rs ih => exact ih _ (pairwise_foldl_edges r.edges acc h)

theorem pairwise_langSizes (repos : List Repo) :
    (langSizes repos).Pairwise (fun a b => a.name ≠ b.name) :=
  pairwise_foldl_repos repos [] (List.Pairwise.nil)

theorem sizeIn_of_mem (acc : List LangInfo)
    (h : acc.Pairwise (fun a b => a.name ≠ b.name)) (l : LangInfo) (hl : l ∈ acc) :
    sizeIn acc l.name = l.size := by
  induction acc with
  | nil => cases hl
  | cons x rest ih =>
      rcases List.pairwise_cons.mp h with ⟨hx, hrest⟩
      rw [sizeIn_cons]
      rcases List.mem_cons.mp hl with h1 | h1
      · subst h1
        rw [if_pos rfl]
        have h0 : sizeIn rest l.name = 0 := by
          unfold sizeIn
          rw [List.filter_eq_nil_iff.mpr ?_]
          · rfl
          · intro b hb
            simp only [decide_eq_true_eq]
            intro hc
            exact hx b hb hc.symm
        omega
      · rw [if_neg (hx l h1), ih hrest h1]
        omega

theorem sizeSum_insertEdge (acc : List LangInfo) (e : LangEdge) :
    ((insertEdge acc e).map (fun l => l.size)).sum
      = (acc.map (fun l => l.size)).sum + e.size := by
  induction acc with
  | nil => simp [insertEdge, applyEdge]
  | cons x rest ih =>
      unfold insertEdge
      by_cases hxe : x.name = e.name
      · rw [if_pos hxe]
        show (x.size + e.size) + (rest.map (fun l => l.size)).sum = _
        simp only [List.map_cons, List.sum_cons]
        omega
      · rw [if_neg hxe]
        simp only [List.map_cons, List.sum_cons, ih]
        omega

theorem sizeSum_foldl_edges (es : List LangEdge) (acc : List LangInfo) :
    ((es.foldl insertEdge acc).map (fun l => l.size)).sum
      = (acc.map (fun l => l.size)).sum + (es.map (fun e => e.size)).sum := by
  induction es generalizing acc with
  | nil => simp
  | cons e es ih =>
      rw [List.foldl_cons, ih, sizeSum_insertEdge]
      simp only [List.map_cons, List.sum_cons]
      omega

theorem totalLangSize_eq (repos : List Repo) :
    totalLangSize repos = ((allEdges repos).map (fun e => e.size)).sum := by
  unfold totalLangSize langSizes
  induction repos with
  | nil => simp [allEdges]
  | cons r rs ih =>
      rw [allEdges_cons, List.map_append, List.sum_append]
      show ((List.foldl _ (r.edges.foldl insertEdge []) rs).map (fun l => l.size)).sum = _
      have step : ∀ (rs' : List Repo) (acc : List LangInfo),
          ((rs'.foldl (fun a rp => rp.edges.foldl insertEdge a) acc).map (fun l => l.size)).sum
            = (acc.map (fun l => l.size)).sum
              + ((allEdges rs').map (fun e => e.size)).sum := by
        intro rs'
        induction rs' with
        | nil => intro acc; simp [allEdges]
        | cons p ps ihp =>
            intro acc
            rw [List.foldl_cons, ihp, sizeSum_foldl_edges, allEdges_cons,
              List.map_append, List.sum_append]
            omega
      rw [step rs (r.edges.foldl insertEdge []), sizeSum_foldl_edges]
      simp only [List.map_nil, List.sum_nil]
      omega

theorem pyRound2_one_third : pyRound2 ((1 : ℚ) / 3 * 100) = 3333 / 100 := by
  unfold pyRound2 pyRoundHE
  have hf : ⌊(1 : ℚ) / 3 * 100 * 100⌋ = 3333 := by
    norm_num [Int.floor_eq_iff]
  rw [hf, if_neg (by norm_num), if_pos (by norm_num)]
  norm_num

theorem pyRound2_sixty : pyRound2 ((300 : ℚ) / 500 * 100) = 60 := by
  unfold pyRound2 pyRoundHE
  have hf : ⌊(300 : ℚ) / 500 * 100 * 100⌋ = 6000 := by
    norm_num [Int.floor_eq_iff]
  rw [hf, if_neg (by norm_num), if_pos (by norm_num)]
  norm_num

theorem pyRound2_forty : pyRound2 ((200 : ℚ) / 500 * 100) = 40 := by
  unfold pyRound2 pyRoundHE
  have hf : ⌊(200 : ℚ) / 500 * 100 * 100⌋ = 4000 := by
    norm_num [Int.floor_eq_iff]
  rw [hf, if_neg (by norm_num), if_pos (by norm_num)]
  norm_num

/-- C6 (amended): the aggregator sums each language's byte sizes across all
repositories, and each displayed percentage is `100 × size / total`, rounded
half-to-even to two decimals, with 0 for every language when the total is 0;
on the worked example `{A:300, B:100}` plus `{B:100}`, B is combined to 200
and the output is A = 60%, B = 40%. -/
theorem C6_language_aggregation (repos : List Repo) :
    calculate_language_stats repos
      = (List.insertionSort sizeGe (langSizes repos)).map (fun l =>
          (⟨l.name,
            pyRound2 (if 0 < totalLangSize repos
              then (aggSize repos l.name : ℚ) / (totalLangSize repos : ℚ) * 100
              else 0),
            l.color⟩ : LanguageShare)) ∧
    totalLangSize repos = ((allEdges repos).map (fun e => e.size)).sum ∧
    aggSize reposAB "B" = 200 ∧
    (calculate_language_stats reposAB).map (fun s => s.name) = ["A", "B"] ∧
    (calculate_language_stats reposAB).map (fun s => s.percentage) = [60, 40] := by
  refine ⟨?_, totalLangSize_eq repos, by decide, by decide, ?_⟩
  · unfold calculate_language_stats
    dsimp only
    refine List.map_congr_left fun l hl => ?_
    have hlm : l ∈ langSizes repos :=
      (List.perm_insertionSort sizeGe (langSizes repos)).mem_iff.mp hl
    have hsize : l.size = aggSize repos l.name := by
      rw [← sizeIn_langSizes, sizeIn_of_mem (langSizes repos) (pairwise_langSizes repos) l hlm]
    rw [← hsize]
    rfl
  · rw [langstats_percentages reposAB (by decide)]
    have h1 : List.insertionSort sizeGe (langSizes reposAB) =
        [⟨"A", 300, "#858585"⟩, ⟨"B", 200, "#858585"⟩] := by decide
    have h2 : totalLangSize reposAB = 500 := by decide
    unfold exactShares
    rw [h1, h2]
    simp only [List.map_cons, List.map_nil, Nat.cast_ofNat]
    rw [pyRound2_sixty, pyRound2_forty]

/-- C6 counterexample: with three languages of one byte each, the displayed
percentage is 33.33, not the exact `100 × size / total = 100/3` — the claim
omits the 2-decimal rounding. -/
theorem C6_percentage_is_rounded_not_exact :
    (calculate_language_stats repos3).map (fun s => s.percentage)
      = [3333 / 100, 3333 / 100, 3333 / 100] ∧
    ((3333 : ℚ) / 100) ≠ (1 : ℚ) / 3 * 100 := by
  constructor
  · rw [langstats_percentages repos3 (by decide)]
    have h1 : List.insertionSort sizeGe (langSizes repos3) =
        [⟨"A", 1, "#858585"⟩, ⟨"B", 1, "#858585"⟩, ⟨"C", 1, "#858585"⟩] := by decide
    have h2 : totalLangSize repos3 = 3 := by decide
    unfold exactShares
    rw [h1, h2]
    simp only [List.map_cons, List.map_nil, Nat.cast_one, Nat.cast_ofNat]
    rw [pyRound2_one_third]
  · norm_num

theorem countP_date_le_one (l : List DayRecord)
    (h : l.Pairwise (fun r s => r.date ≠ s.date)) (d : Nat) :
    l.countP (fun r => decide (r.date = d)) ≤ 1 := by
  induction l with
  | nil => simp
  | cons x t ih =>
      rcases List.pairwise_cons.mp h with ⟨hx, ht⟩
      rw [List.countP_cons]
      by_cases hxd : x.date = d
      · have h0 : t.countP (fun r => decide (r.date = d)) = 0 :=
          List.countP_eq_zero.mpr fun a ha => by
            simp only [decide_eq_true_eq]
            intro hc
            exact hx a ha (hxd.trans hc.symm)
        simp [h0, hxd]
      · have hd : decide (x.date = d) = false := by simp [hxd]
        rw [hd]
        simpa using ih ht

theorem streaks_total (days : List DayRecord) (today : Nat) :
    (calculate_streaks days today).total = (days.map (fun r => r.count)).sum := by
  have hperm : ((sortedByDate days).map (fun r => r.count)).sum
      = (days.map (fun r => r.count)).sum :=
    ((sortedByDate_perm days).map _).sum_eq
  unfold calculate_streaks
  dsimp only
  split
  next he =>
    have hnil : contribDates days = [] := by
      simpa [List.isEmpty_iff] using he
    rw [← hperm]
    symm
    apply List.sum_eq_zero
    intro x hx
    rcases List.mem_map.mp hx with ⟨r, hr, rfl⟩
    by_contra hc
    have hd : r.date ∈ contribDates days := by
      unfold contribDates
      exact List.mem_map.mpr ⟨r, List.mem_filter.mpr ⟨hr, by simpa using Nat.pos_of_ne_zero hc⟩, rfl⟩
    rw [hnil] at hd
    cases hd
  next he =>
    split_ifs <;> (dsimp only; exact hperm)

/-- C3 counterexample: two overlapping one-day batches for the same date are
merged by plain concatenation — the merged series keeps both records for
date 0 and the total counts that date's contributions twice. -/
theorem C3_overlapping_batches_not_deduplicated :
    (merge_batches [[⟨0, 1⟩], [⟨0, 1⟩]]).countP (fun r => decide (r.date = 0)) = 2 ∧
    (calculate_streaks (merge_batches [[⟨0, 1⟩], [⟨0, 1⟩]]) 0).total = 2 := by decide

/-- C3 (amended): the merge is plain concatenation with no deduplication; when
the batches' dates are pairwise distinct (as with the per-year fetches), the
merged series has at most one record per date, the view sorted inside the
streak computation is ascending by date, and the reported total sums every
record's count (so each date is counted exactly once). -/
theorem C3_merge_is_concatenation (batches : List (List DayRecord)) (today : Nat)
    (h : (merge_batches batches).Pairwise (fun r s => r.date ≠ s.date)) :
    (∀ d : Nat, (merge_batches batches).countP (fun r => decide (r.date = d)) ≤ 1) ∧
    List.Sorted dateLe (sortedByDate (merge_batches batches)) ∧
    (calculate_streaks (merge_batches batches) today).total
      = ((merge_batches batches).map (fun r => r.count)).sum :=
  ⟨fun d => countP_date_le_one _ h d,
    List.sorted_insertionSort dateLe _,
    streaks_total _ today⟩

/-- Witness for C3 at two disjoint one-day batches. -/
theorem C3_merge_is_concatenation_witness :
    (∀ d : Nat, (merge_batches [[⟨0, 1⟩], [⟨2, 3⟩]]).countP (fun r => decide (r.date = d)) ≤ 1) ∧
    List.Sorted dateLe (sortedByDate (merge_batches [[⟨0, 1⟩], [⟨2, 3⟩]])) ∧
    (calculate_streaks (merge_batches [[⟨0, 1⟩], [⟨2, 3⟩]]) 2).total
      = ((merge_batches [[⟨0, 1⟩], [⟨2, 3⟩]]).map (fun r => r.count)).sum :=
  C3_merge_is_concatenation [[⟨0, 1⟩], [⟨2, 3⟩]] 2 (by decide)

theorem walkDates_zero (A : Nat → Bool) (a : Nat) :
    walkDates A a 0 = ⟨0, none, 0, none, none⟩ := rfl

theorem walkDates_succ (A : Nat → Bool) (a n : Nat) :
    walkDates A a (n + 1) = streakStep (A (a + n)) (a + n) (walkDates A a n) := by
  unfold walkDates
  rw [show List.range' a (n + 1) = List.range' a n ++ [a + n] from by
        simpa using @List.range'_concat 1 a n,
    List.foldl_append]
  rfl

theorem trail_zero (A : Nat → Bool) (a : Nat) : trail A a 0 = 0 := rfl

theorem trail_succ (A : Nat → Bool) (a n : Nat) :
    trail A a (n + 1) = if A (a + n) then trail A a n + 1 else 0 := rfl

theorem streakStep_active (d : Nat) (s : WalkState) :
    streakStep true d s = { s with
      streak := s.streak + 1
      streak_start := if s.streak = 0 then some d else s.streak_start } := rfl

theorem streakStep_break_gt (d : Nat) (s : WalkState) (h1 : 0 < s.streak)
    (h2 : s.longest < s.streak) :
    streakStep false d s = ⟨0, none, s.streak, s.streak_start, some (d - 1)⟩ := by
  unfold streakStep
  rw [if_neg (by simp), if_pos h1, if_pos h2]

theorem streakStep_break_le (d : Nat) (s : WalkState) (h1 : 0 < s.streak)
    (h2 : ¬ s.longest < s.streak) :
    streakStep false d s = { s with
      streak := 0
      streak_start := none } := by
  unfold streakStep
  rw [if_neg (by simp), if_pos h1, if_neg h2]

theorem streakStep_idle (d : Nat) (s : WalkState) (h1 : ¬ 0 < s.streak) :
    streakStep false d s = s := by
  unfold streakStep
  rw [if_neg (by simp), if_neg h1]

theorem trail_le (A : Nat → Bool) (a : Nat) : ∀ n, trail A a n ≤ n := by
  intro n
  induction n with
  | zero => exact Nat.le_refl 0
  | succ n ih =>
      rw [trail_succ]
      split
      · omega
      · omega

theorem trail_active (A : Nat → Bool) (a : Nat) :
    ∀ n i, n - trail A a n ≤ i → i < n → A (a + i) = true := by
  intro n
  induction n with
  | zero => intro i h1 h2; omega
  | succ n ih =>
      intro i h1 h2
      by_cases hA : A (a + n) = true
      · have ht : trail A a (n + 1) = trail A a n + 1 := by
          rw [trail_succ, if_pos hA]
        rw [ht] at h1
        by_cases h3 : i = n
        · rw [h3]; exact hA
        · exact ih i (by omega) (by omega)
      · have ht : trail A a (n + 1) = 0 := by
          rw [trail_succ, if_neg hA]
        rw [ht] at h1
        omega

theorem trail_boundary (A : Nat → Bool) (a : Nat) :
    ∀ n, trail A a n < n → A (a + (n - trail A a n - 1)) = false := by
  intro n
  induction n with
  | zero => intro h; omega
  | succ n ih =>
      intro h
      by_cases hA : A (a + n) = true
      · have ht : trail A a (n + 1) = trail A a n + 1 := by
          rw [trail_succ, if_pos hA]
        rw [ht] at h ⊢
        have h' : trail A a n < n := by omega
        have hb := ih h'
        rw [show n + 1 - (trail A a n + 1) - 1 = n - trail A a n - 1 from by omega]
        exact hb
      · have hA' : A (a + n) = false := by
          cases hb : A (a + n)
          · rfl
          · exact absurd hb hA
        have ht : trail A a (n + 1) = 0 := by
          rw [trail_succ, if_neg hA]
        rw [ht]
        rw [show n + 1 - 0 - 1 = n from by omega]
        exact hA'

theorem trail_ge (A : Nat → Bool) (a : Nat) :
    ∀ n k, k ≤ n → (∀ i, n - k ≤ i → i < n → A (a + i) = true) → k ≤ trail A a n := by
  intro n
  induction n with
  | zero => intro k hk _; omega
  | succ n ih =>
      intro k hk hall
      cases k with
      | zero => omega
      | succ j =>
          have hA : A (a + n) = true := hall n (by omega) (by omega)
          have ht : trail A a (n + 1) = trail A a n + 1 := by
            rw [trail_succ, if_pos hA]
          rw [ht]
          have hj : j ≤ trail A a n :=
            ih j (by omega) (fun i h1 h2 => hall i (by omega) (by omega))
          omega

theorem closedRun_mono (A : Nat → Bool) (a n p q : Nat) (h : ClosedRunIn A a n p q) :
    ClosedRunIn A a (n + 1) p q := by
  obtain ⟨h1, h2, h3, h4, h5, h6⟩ := h
  exact ⟨h1, h2, by omega, h4, h5, h6⟩

theorem closedRun_of_succ_active (A : Nat → Bool) (a n p q : Nat) (hA : A (a + n) = true)
    (h : ClosedRunIn A a (n + 1) p q) : ClosedRunIn A a n p q := by
  obtain ⟨h1, h2, h3, h4, h5, h6⟩ := h
  refine ⟨h1, h2, ?_, h4, h5, h6⟩
  by_cases he : q + 1 = a + n
  · rw [he, hA] at h5
    exact absurd h5 (by decide)
  · omega

theorem closedRun_of_succ_break0 (A : Nat → Bool) (a n p q : Nat) (hA : A (a + n) = false)
    (ht : trail A a n = 0) (h : ClosedRunIn A a (n + 1) p q) : ClosedRunIn A a n p q := by
  obtain ⟨h1, h2, h3, h4, h5, h6⟩ := h
  refine ⟨h1, h2, ?_, h4, h5, h6⟩
  by_cases he : q + 1 = a + n
  · exfalso
    have hn : 1 ≤ n := by omega
    obtain ⟨m, rfl⟩ := Nat.exists_eq_succ_of_ne_zero (show n ≠ 0 by omega)
    rw [trail_succ] at ht
    by_cases hAm : A (a + m) = true
    · rw [if_pos hAm] at ht
      omega
    · have hq : A q = true := h4 q h2 (Nat.le_refl q)
      rw [show q = a + m from by omega] at hq
      exact hAm hq
  · omega

theorem closedRun_new (A : Nat → Bool) (a n : Nat) (hA : A (a + n) = false)
    (ht : 0 < trail A a n) :
    ClosedRunIn A a (n + 1) (a + n - trail A a n) (a + n - 1) := by
  have hle := trail_le A a n
  refine ⟨by omega, by omega, by omega, ?_, ?_, ?_⟩
  · intro i hi1 hi2
    have h := trail_active A a n (i - a) (by omega) (by omega)
    rwa [show a + (i - a) = i from by omega] at h
  · rw [show (a + n - 1) + 1 = a + n from by omega]
    exact hA
  · by_cases he : trail A a n = n
    · left
      omega
    · right
      have hb := trail_boundary A a n (by omega)
      rwa [show a + (n - trail A a n - 1) = a + n - trail A a n - 1 from by omega] at hb

theorem closedRun_before_trail (A : Nat → Bool) (a n p q : Nat)
    (h : ClosedRunIn A a n p q) (ht : 0 < trail A a n) :
    q + 1 < a + n - trail A a n ∧ p < a + n - trail A a n := by
  obtain ⟨h1, h2, h3, h4, h5, h6⟩ := h
  have hle := trail_le A a n
  have hq : q + 1 < a + n - trail A a n := by
    by_contra hc
    push_neg at hc
    have hact := trail_active A a n (q + 1 - a) (by omega) (by omega)
    rw [show a + (q + 1 - a) = q + 1 from by omega, h5] at hact
    exact absurd hact (by decide)
  exact ⟨hq, by omega⟩

theorem closedRun_succ_close (A : Nat → Bool) (a n p q : Nat) (hA : A (a + n) = false)
    (ht : 0 < trail A a n) (h : ClosedRunIn A a (n + 1) p q) :
    ClosedRunIn A a n p q ∨ (p = a + n - trail A a n ∧ q = a + n - 1) := by
  obtain ⟨h1, h2, h3, h4, h5, h6⟩ := h
  have hle := trail_le A a n
  by_cases he : q + 1 = a + n
  · right
    refine ⟨?_, by omega⟩
    have hp1 : a + n - trail A a n ≤ p := by
      by_contra hc
      push_neg at hc
      have htn : trail A a n < n := by omega
      have hb := trail_boundary A a n htn
      have hact := h4 (a + (n - trail A a n - 1)) (by omega) (by omega)
      rw [hact] at hb
      exact absurd hb (by decide)
    have hp2 : p ≤ a + n - trail A a n := by
      by_contra hc
      push_neg at hc
      rcases h6 with h6 | h6
      · omega
      · have hact := trail_active A a n (p - 1 - a) (by omega) (by omega)
        rw [show a + (p - 1 - a) = p - 1 from by omega, h6] at hact
        exact absurd hact (by decide)
    omega
  · left
    exact ⟨h1, h2, by omega, h4, h5, h6⟩

theorem walkInv (A : Nat → Bool) (a : Nat) : ∀ n, WalkInv A a n (walkDates A a n) := by
  intro n
  induction n with
  | zero =>
      rw [walkDates_zero]
      refine ⟨rfl, ?_, ?_, ?_⟩
      · intro h
        exact absurd h (by decide)
      · intro p q hpq
        obtain ⟨h1, h2, h3, _, _, _⟩ := hpq
        omega
      · intro h
        exact absurd h (by decide)
  | succ n ih =>
      rw [walkDates_succ]
      obtain ⟨ihstreak, ihstart, ihbound, ihach⟩ := ih
      by_cases hA : A (a + n) = true
      · -- the walked day is active: extend the trailing run, closed runs unchanged
        rw [hA, streakStep_active]
        have htr : trail A a (n + 1) = trail A a n + 1 := by
          rw [trail_succ, if_pos hA]
        have hle : (walkDates A a n).streak ≤ n := by
          rw [ihstreak]; exact trail_le A a n
        refine ⟨?_, ?_, ?_, ?_⟩
        · dsimp only
          rw [ihstreak, htr]
        · intro _
          dsimp only
          by_cases h0 : (walkDates A a n).streak = 0
          · rw [if_pos h0, h0]
            all_goals (congr 1 <;> omega)
          · rw [if_neg h0, ihstart (Nat.pos_of_ne_zero h0)]
            congr 1
            omega
        · intro p q hpq
          dsimp only
          exact ihbound p q (closedRun_of_succ_active A a n p q hA hpq)
        · intro hl
          dsimp only at hl ⊢
          obtain ⟨p, q, e1, e2, e3, e4, e5⟩ := ihach hl
          exact ⟨p, q, e1, e2, closedRun_mono A a n p q e3, e4,
            fun p2 q2 h2 hlen => e5 p2 q2 (closedRun_of_succ_active A a n p2 q2 hA h2) hlen⟩
      · -- the walked day is inactive
        have hA' : A (a + n) = false := by
          cases hb : A (a + n)
          · rfl
          · exact absurd hb hA
        have htr0 : trail A a (n + 1) = 0 := by
          rw [trail_succ, if_neg hA]
        rw [hA']
        by_cases h0 : 0 < (walkDates A a n).streak
        · -- a run is closing
          have htpos : 0 < trail A a n := by rw [← ihstreak]; exact h0
          have hle := trail_le A a n
          have hnew := closedRun_new A a n hA' htpos
          by_cases hgt : (walkDates A a n).longest < (walkDates A a n).streak
          · rw [streakStep_break_gt (a + n) _ h0 hgt]
            refine ⟨?_, ?_, ?_, ?_⟩
            · dsimp only
              rw [htr0]
            · intro h
              exact absurd h (lt_irrefl 0)
            · intro p q hpq
              dsimp only
              rcases closedRun_succ_close A a n p q hA' htpos hpq with hold | ⟨hp, hq⟩
              · have := ihbound p q hold
                omega
              · rw [hp, hq]
                have := ihstreak
                omega
            · intro _
              dsimp only
              refine ⟨a + n - trail A a n, a + n - 1, ?_, rfl, hnew, ?_, ?_⟩
              · rw [ihstart h0, ihstreak]
              · have := ihstreak
                omega
              · intro p2 q2 h2 hlen
                rcases closedRun_succ_close A a n p2 q2 hA' htpos h2 with hold | ⟨hp, hq⟩
                · have := ihbound p2 q2 hold
                  have := ihstreak
                  omega
                · omega
          · rw [streakStep_break_le (a + n) _ h0 hgt]
            refine ⟨?_, ?_, ?_, ?_⟩
            · dsimp only
              rw [htr0]
            · intro h
              exact absurd h (lt_irrefl 0)
            · intro p q hpq
              dsimp only
              rcases closedRun_succ_close A a n p q hA' htpos hpq with hold | ⟨hp, hq⟩
              · exact ihbound p q hold
              · rw [hp, hq]
                have := ihstreak
                omega
            · intro hl
              dsimp only at hl ⊢
              obtain ⟨p, q, e1, e2, e3, e4, e5⟩ := ihach hl
              refine ⟨p, q, e1, e2, closedRun_mono A a n p q e3, e4, ?_⟩
              intro p2 q2 h2 hlen
              rcases closedRun_succ_close A a n p2 q2 hA' htpos h2 with hold | ⟨hp, hq⟩
              · exact e5 p2 q2 hold hlen
              · have hb := closedRun_before_trail A a n p q e3 htpos
                omega
        · -- no run in progress: state unchanged
          rw [streakStep_idle (a + n) _ h0]
          have ht0 : trail A a n = 0 := by
            rw [← ihstreak]; omega
          refine ⟨?_, ?_, ?_, ?_⟩
          · rw [ihstreak, ht0, htr0]
          · intro h
            rw [ihstreak, ht0] at h
            exact absurd h (by decide)
          · intro p q hpq
            exact ihbound p q (closedRun_of_succ_break0 A a n p q hA' ht0 hpq)
          · intro hl
            obtain ⟨p, q, e1, e2, e3, e4, e5⟩ := ihach hl
            exact ⟨p, q, e1, e2, closedRun_mono A a n p q e3, e4,
              fun p2 q2 h2 hlen =>
                e5 p2 q2 (closedRun_of_succ_break0 A a n p2 q2 hA' ht0 h2) hlen⟩

theorem foldl_min_le_init (ys : List Nat) : ∀ x0, ys.foldl Nat.min x0 ≤ x0 := by
  induction ys with
  | nil => intro x0; exact Nat.le_refl x0
  | cons y ys ih =>
      intro x0
      exact Nat.le_trans (ih (Nat.min x0 y)) (Nat.min_le_left x0 y)

theorem foldl_min_le_mem (ys : List Nat) : ∀ x0 z, z ∈ ys → ys.foldl Nat.min x0 ≤ z := by
  induction ys with
  | nil => intro x0 z hz; cases hz
  | cons y ys ih =>
      intro x0 z hz
      rcases List.mem_cons.mp hz with rfl | hz
      · exact Nat.le_trans (foldl_min_le_init ys (Nat.min x0 z)) (Nat.min_le_right x0 z)
      · exact ih (Nat.min x0 y) z hz

theorem foldl_min_mem (ys : List Nat) :
    ∀ x0, ys.foldl Nat.min x0 = x0 ∨ ys.foldl Nat.min x0 ∈ ys := by
  induction ys with
  | nil => intro x0; left; rfl
  | cons y ys ih =>
      intro x0
      rcases ih (Nat.min x0 y) with h | h
      · rw [List.foldl_cons, h]
        rcases Nat.le_total x0 y with hxy | hxy
        · left
          simp [Nat.min, hxy]
        · have hy : Nat.min x0 y = y := by
            simp only [Nat.min]
            omega
          rw [hy]
          right
          exact List.mem_cons_self y ys
      · right
        exact List.mem_cons_of_mem y h

theorem minimumD_le (l : List Nat) (x : Nat) (hx : x ∈ l) : minimumD l ≤ x := by
  cases l with
  | nil => cases hx
  | cons y ys =>
      rcases List.mem_cons.mp hx with rfl | hx
      · exact foldl_min_le_init ys x
      · exact foldl_min_le_mem ys y x hx

theorem minimumD_mem (l : List Nat) (h : l ≠ []) : minimumD l ∈ l := by
  cases l with
  | nil => exact absurd rfl h
  | cons y ys =>
      show ys.foldl Nat.min y ∈ y :: ys
      rcases foldl_min_mem ys y with h1 | h1
      · rw [h1]
        exact List.mem_cons_self y ys
      · exact List.mem_cons_of_mem y h1

theorem activeOn_iff (days : List DayRecord) (d : Nat) :
    activeOn days d = true ↔ d ∈ contribDates days := by
  simp [activeOn, List.contains]

theorem mem_contribDates (days : List DayRecord) (d : Nat) :
    d ∈ contribDates days ↔ ∃ r ∈ days, r.date = d ∧ 0 < r.count := by
  unfold contribDates
  rw [List.mem_map]
  constructor
  · rintro ⟨r, hr, rfl⟩
    rcases List.mem_filter.mp hr with ⟨hr1, hr2⟩
    exact ⟨r, (sortedByDate_perm days).mem_iff.mp hr1, rfl, by simpa using hr2⟩
  · rintro ⟨r, hr, rfl, hc⟩
    exact ⟨r, List.mem_filter.mpr ⟨(sortedByDate_perm days).mem_iff.mpr hr, by simpa using hc⟩, rfl⟩

theorem streaks_post (days : List DayRecord) (today : Nat) (hne : contribDates days ≠ [])
    (s : WalkState)
    (hs : s = walkDates (fun d => (contribDates days).contains d) (minimumD (contribDates days))
            (today + 1 - minimumD (contribDates days))) :
    (calculate_streaks days today).longest
        = (if s.longest < s.streak then s.streak else s.longest) ∧
    (calculate_streaks days today).longest_start
        = (if s.longest < s.streak then s.streak_start else s.longest_start) ∧
    (calculate_streaks days today).longest_end
        = (if s.longest < s.streak then
             some (if (contribDates days).contains today then today else today - 1)
           else s.longest_end) := by
  subst hs
  unfold calculate_streaks
  dsimp only
  rw [if_neg (by simpa [List.isEmpty_iff] using hne)]
  split_ifs <;> first | exact ⟨rfl, rfl, rfl⟩ | omega

/-- C4: for a series whose positive-count records all lie on or before `today`,
if `[p, q]` is the earliest maximal-length run of consecutive active dates and
`[p2, q2]` is a second, later run of the same (maximal) length, then the streak
computation reports exactly the earliest run as "longest" — its length, start
date and end date — and the later equal-length run never replaces it. -/
theorem C4_longest_keeps_first_maximal_run (days : List DayRecord) (today p q p2 q2 : Nat)
    (hpast : ∀ r ∈ days, 0 < r.count → r.date ≤ today)
    (h1 : IsRun days p q) (h2 : IsRun days p2 q2)
    (hlen : q2 + 1 - p2 = q + 1 - p)
    (hmax : ∀ u v, IsRun days u v → v + 1 - u ≤ q + 1 - p)
    (hfirst : ∀ u v, IsRun days u v → v + 1 - u = q + 1 - p → p ≤ u)
    (hlt : p < p2) :
    (calculate_streaks days today).longest = q + 1 - p ∧
    (calculate_streaks days today).longest_start = some p ∧
    (calculate_streaks days today).longest_end = some q := by
  obtain ⟨hpq, hall, hq1, hp1⟩ := h1
  have hactive_le : ∀ d, activeOn days d = true → d ≤ today := by
    intro d hd
    rcases (mem_contribDates days d).mp ((activeOn_iff days d).mp hd) with ⟨r, hr, hrd, hc⟩
    rw [← hrd]
    exact hpast r hr hc
  have hpA : activeOn days p = true := hall p (Nat.le_refl p) hpq
  have hne : contribDates days ≠ [] := by
    intro hnil
    have hmem := (activeOn_iff days p).mp hpA
    rw [hnil] at hmem
    cases hmem
  obtain ⟨m, hm⟩ : ∃ m0 : Nat, m0 = minimumD (contribDates days) := ⟨_, rfl⟩
  have hmA : activeOn days m = true :=
    (activeOn_iff days m).mpr (hm ▸ minimumD_mem (contribDates days) hne)
  have hmin : ∀ d, activeOn days d = true → m ≤ d := by
    intro d hd
    exact hm ▸ minimumD_le (contribDates days) d ((activeOn_iff days d).mp hd)
  have hmT : m ≤ today := hactive_le m hmA
  have hpm : m ≤ p := hmin p hpA
  obtain ⟨s, hs⟩ : ∃ s0 : WalkState,
      s0 = walkDates (fun d => (contribDates days).contains d) m (today + 1 - m) := ⟨_, rfl⟩
  have Hpost := streaks_post days today hne s (by rw [hs, hm])
  have Hinv : WalkInv (activeOn days) m (today + 1 - m) s := by
    rw [hs]
    exact walkInv (activeOn days) m (today + 1 - m)
  obtain ⟨ihstreak, ihstart, ihbound, ihach⟩ := Hinv
  have htle := trail_le (activeOn days) m (today + 1 - m)
  have bridge1 : ∀ u v, IsRun days u v → v < today →
      ClosedRunIn (activeOn days) m (today + 1 - m) u v := by
    intro u v hr hv
    obtain ⟨huv, hall2, hv1, hu1⟩ := hr
    have hum : m ≤ u := hmin u (hall2 u (Nat.le_refl u) huv)
    refine ⟨hum, huv, by omega, hall2, hv1, ?_⟩
    rcases hu1 with hu1 | hu1
    · left
      omega
    · right
      exact hu1
  have bridge2 : ∀ u v, ClosedRunIn (activeOn days) m (today + 1 - m) u v →
      IsRun days u v := by
    intro u v hr
    obtain ⟨hmu, huv, hvb, hall2, hv1, hu1⟩ := hr
    refine ⟨huv, hall2, hv1, ?_⟩
    rcases hu1 with hu1 | hu1
    · by_cases hm0 : m = 0
      · left
        omega
      · right
        rw [hu1]
        cases hb : activeOn days (m - 1)
        · rfl
        · exact absurd (hmin (m - 1) hb) (by omega)
    · right
      exact hu1
  have hqA : activeOn days q = true := hall q hpq (Nat.le_refl q)
  have hqT : q ≤ today := hactive_le q hqA
  by_cases hAt : activeOn days today = true
  · have htpos : 0 < trail (activeOn days) m (today + 1 - m) := by
      rw [show today + 1 - m = (today - m) + 1 from by omega, trail_succ,
        show m + (today - m) = today from by omega, if_pos hAt]
      omega
    have hstpos : 0 < s.streak := by
      rw [ihstreak]
      exact htpos
    have hopen : IsRun days (today + 1 - trail (activeOn days) m (today + 1 - m)) today := by
      refine ⟨by omega, ?_, ?_, ?_⟩
      · intro i hi1 hi2
        have h := trail_active (activeOn days) m (today + 1 - m) (i - m) (by omega) (by omega)
        rwa [show m + (i - m) = i from by omega] at h
      · cases hb : activeOn days (today + 1)
        · rfl
        · exact absurd (hactive_le (today + 1) hb) (by omega)
      · by_cases htall : trail (activeOn days) m (today + 1 - m) = today + 1 - m
        · by_cases hm0 : m = 0
          · left
            omega
          · right
            rw [show today + 1 - trail (activeOn days) m (today + 1 - m) - 1 = m - 1 from by
              omega]
            cases hb : activeOn days (m - 1)
            · rfl
            · exact absurd (hmin (m - 1) hb) (by omega)
        · right
          have hb := trail_boundary (activeOn days) m (today + 1 - m) (by omega)
          rwa [show m + ((today + 1 - m) - trail (activeOn days) m (today + 1 - m) - 1)
              = today + 1 - trail (activeOn days) m (today + 1 - m) - 1 from by omega] at hb
    have hmaxo := hmax _ today hopen
    by_cases hqt : q = today
    · have htrp : trail (activeOn days) m (today + 1 - m) = q + 1 - p := by
        have hge : q + 1 - p ≤ trail (activeOn days) m (today + 1 - m) := by
          apply trail_ge
          · omega
          · intro i hi1 hi2
            have hx1 : p ≤ m + i := by
              clear * - hi1 hi2 hqt hpm hmT htle hpq hqT
              omega
            have hx2 : m + i ≤ q := by
              clear * - hi1 hi2 hqt hpm hmT htle hpq hqT
              omega
            exact hall (m + i) hx1 hx2
        have hle2 : trail (activeOn days) m (today + 1 - m) ≤ q + 1 - p := by
          by_contra hc
          push_neg at hc
          rcases hp1 with hp1 | hp1
          · omega
          · have hact := trail_active (activeOn days) m (today + 1 - m) (p - 1 - m)
                (by omega) (by omega)
            rw [show m + (p - 1 - m) = p - 1 from by omega, hp1] at hact
            exact absurd hact (by decide)
        omega
      have hgt : s.longest < s.streak := by
        by_contra hc
        push_neg at hc
        have hlpos : 0 < s.longest := by omega
        obtain ⟨p0, q0, e1, e2, e3, e4, e5⟩ := ihach hlpos
        clear ihach
        have hrun0 := bridge2 p0 q0 e3
        have hmax0 := hmax p0 q0 hrun0
        have hfirst0 := hfirst p0 q0 hrun0 (by omega)
        have hbt := closedRun_before_trail (activeOn days) m (today + 1 - m) p0 q0 e3 htpos
        omega
      rw [Hpost.1, Hpost.2.1, Hpost.2.2, if_pos hgt, if_pos hgt, if_pos hgt]
      have hAt2 : (contribDates days).contains today = true := hAt
      refine ⟨by omega, ?_, ?_⟩
      · rw [ihstart hstpos]
        congr 1
        clear ihach
        omega
      · rw [if_pos hAt2, hqt]
    · have hqlt : q < today := by omega
      have hcr := bridge1 p q ⟨hpq, hall, hq1, hp1⟩ hqlt
      have hbd := ihbound p q hcr
      have hlpos : 0 < s.longest := by omega
      obtain ⟨p0, q0, e1, e2, e3, e4, e5⟩ := ihach hlpos
      clear ihach
      have hpq0 : p0 ≤ q0 := e3.2.1
      have hrun0 := bridge2 p0 q0 e3
      have hmax0 := hmax p0 q0 hrun0
      have hno : ¬ s.longest < s.streak := by
        intro hc
        rw [ihstreak] at hc
        omega
      have hfirst0 := hfirst p0 q0 hrun0 (by omega)
      have hmin0 := e5 p q hcr (by omega)
      have hp0 : p0 = p := by omega
      have hq0 : q0 = q := by omega
      rw [Hpost.1, Hpost.2.1, Hpost.2.2, if_neg hno, if_neg hno, if_neg hno]
      refine ⟨by omega, ?_, ?_⟩
      · rw [e1, hp0]
      · rw [e2, hq0]
  · have hAf : activeOn days today = false := by
      cases hb : activeOn days today
      · rfl
      · exact absurd hb hAt
    have htr0 : trail (activeOn days) m (today + 1 - m) = 0 := by
      rw [show today + 1 - m = (today - m) + 1 from by omega, trail_succ,
        show m + (today - m) = today from by omega, if_neg (by simp [hAf])]
    have hst0 : s.streak = 0 := by
      rw [ihstreak, htr0]
    have hno : ¬ s.longest < s.streak := by omega
    have hqlt : q < today := by
      by_cases hq : q = today
      · rw [hq, hAf] at hqA
        exact absurd hqA (by decide)
      · omega
    have hcr := bridge1 p q ⟨hpq, hall, hq1, hp1⟩ hqlt
    have hbd := ihbound p q hcr
    have hlpos : 0 < s.longest := by omega
    obtain ⟨p0, q0, e1, e2, e3, e4, e5⟩ := ihach hlpos
    clear ihach
    have hpq0 : p0 ≤ q0 := e3.2.1
    have hrun0 := bridge2 p0 q0 e3
    have hmax0 := hmax p0 q0 hrun0
    have hfirst0 := hfirst p0 q0 hrun0 (by omega)
    have hmin0 := e5 p q hcr (by omega)
    have hp0 : p0 = p := by omega
    have hq0 : q0 = q := by omega
    rw [Hpost.1, Hpost.2.1, Hpost.2.2, if_neg hno, if_neg hno, if_neg hno]
    refine ⟨by omega, ?_, ?_⟩
    · rw [e1, hp0]
    · rw [e2, hq0]

/-- Witness for C4: the series active on days 1-2 and 4-5 with `today = 7`
has two maximal runs of length 2, and the computation reports the first. -/
theorem C4_longest_keeps_first_maximal_run_witness :
    (calculate_streaks days4 7).longest = 2 + 1 - 1 ∧
    (calculate_streaks days4 7).longest_start = some 1 ∧
    (calculate_streaks days4 7).longest_end = some 2 := by
  have hact : ∀ d : Nat, activeOn days4 d = true ↔ (d = 1 ∨ d = 2 ∨ d = 4 ∨ d = 5) := by
    intro d
    have hc : contribDates days4 = [1, 2, 4, 5] := by decide
    rw [activeOn_iff, hc]
    simp
  refine C4_longest_keeps_first_maximal_run days4 7 1 2 4 5 ?_ ?_ ?_ ?_ ?_ ?_ ?_
  · decide
  · refine ⟨by omega, ?_, ?_, ?_⟩
    · intro i hi1 hi2
      interval_cases i <;> decide
    · decide
    · right
      decide
  · refine ⟨by omega, ?_, ?_, ?_⟩
    · intro i hi1 hi2
      interval_cases i <;> decide
    · decide
    · right
      decide
  · decide
  · intro u v hr
    obtain ⟨huv, hallr, hv1, hu1⟩ := hr
    have hu := (hact u).mp (hallr u (Nat.le_refl u) huv)
    have hv := (hact v).mp (hallr v huv (Nat.le_refl v))
    rcases hu with rfl | rfl | rfl | rfl <;> rcases hv with rfl | rfl | rfl | rfl <;>
      first
        | omega
        | (exact absurd (hallr 3 (by omega) (by omega)) (by decide))
  · intro u v hr hlen2
    obtain ⟨huv, hallr, hv1, hu1⟩ := hr
    have hu := (hact u).mp (hallr u (Nat.le_refl u) huv)
    rcases hu with rfl | rfl | rfl | rfl <;> omega
  · decide

/-- C9: the card generators are deterministic.  Each takes the ambient clock
`now` as an explicit argument (the only way a timestamp could enter), and the
output is independent of it, so two calls with identical statistics and
theme/layout arguments produce byte-identical strings: no timestamp or
randomness is embedded. -/
theorem C9_rendering_deterministic :
    (∀ stats username theme n1 n2,
      generate_stats_svg stats username theme n1
        = generate_stats_svg stats username theme n2) ∧
    (∀ languages theme layout n1 n2,
      generate_top_langs_svg languages theme layout n1
        = generate_top_langs_svg languages theme layout n2) ∧
    (∀ streaks username theme n1 n2,
      generate_streak_svg streaks username theme n1
        = generate_streak_svg streaks username theme n2) :=
  ⟨fun _ _ _ _ _ => rfl, fun _ _ _ _ _ => rfl, fun _ _ _ _ _ => rfl⟩

/-- C10: a theme name outside the known palette set falls back silently to the
default palette — "merko" for the stats and top-languages cards, "tokyonight"
for the streak card — and the output is identical to an explicit call with
that default theme. -/
theorem C10_unknown_theme_default_palette :
    (∀ stats username theme now,
      theme ∉ (["merko", "dark", "default"] : List String) →
      generate_stats_svg stats username theme now
        = generate_stats_svg stats username "merko" now) ∧
    (∀ languages theme layout now,
      theme ∉ (["merko", "dark", "default"] : List String) →
      generate_top_langs_svg languages theme layout now
        = generate_top_langs_svg languages "merko" layout now) ∧
    (∀ streaks username theme now,
      theme ∉ (["tokyonight", "dark", "default"] : List String) →
      generate_streak_svg streaks username theme now
        = generate_streak_svg streaks username "tokyonight" now) := by
  refine ⟨?_, ?_, ?_⟩
  · intro stats username theme now h
    simp only [List.mem_cons, List.not_mem_nil, or_false, not_or] at h
    obtain ⟨h1, h2, h3⟩ := h
    have ht : statsThemes theme = statsThemes "merko" := by
      unfold statsThemes
      rw [if_neg h1, if_neg h2, if_neg h3, if_pos rfl]
    unfold generate_stats_svg
    rw [ht]
  · intro languages theme layout now h
    simp only [List.mem_cons, List.not_mem_nil, or_false, not_or] at h
    obtain ⟨h1, h2, h3⟩ := h
    have ht : langsThemes theme = langsThemes "merko" := by
      unfold langsThemes
      rw [if_neg h1, if_neg h2, if_neg h3, if_pos rfl]
    unfold generate_top_langs_svg
    rw [ht]
  · intro streaks username theme now h
    simp only [List.mem_cons, List.not_mem_nil, or_false, not_or] at h
    obtain ⟨h1, h2, h3⟩ := h
    have ht : streakThemes theme = streakThemes "tokyonight" := by
      unfold streakThemes
      rw [if_neg h1, if_neg h2, if_neg h3, if_pos rfl]
    unfold generate_streak_svg
    rw [ht]

/-- Witness for C10 at the unknown theme name "solarized" and concrete
argument values. -/
theorem C10_unknown_theme_default_palette_witness :
    generate_stats_svg ⟨[], 0, 0, 0, 0, 0, 0, 0⟩ "bkataru" "solarized" 0
      = generate_stats_svg ⟨[], 0, 0, 0, 0, 0, 0, 0⟩ "bkataru" "merko" 0 ∧
    generate_top_langs_svg [] "solarized" "donut-vertical" 0
      = generate_top_langs_svg [] "merko" "donut-vertical" 0 ∧
    generate_streak_svg ⟨0, 0, none, none, 0, none, none⟩ "bkataru" "solarized" 0
      = generate_streak_svg ⟨0, 0, none, none, 0, none, none⟩ "bkataru" "tokyonight" 0 :=
  ⟨C10_unknown_theme_default_palette.1 ⟨[], 0, 0, 0, 0, 0, 0, 0⟩ "bkataru" "solarized" 0
      (by decide),
    C10_unknown_theme_default_palette.2.1 [] "solarized" "donut-vertical" 0 (by decide),
    C10_unknown_theme_default_palette.2.2 ⟨0, 0, none, none, 0, none, none⟩ "bkataru"
      "solarized" 0 (by decide)⟩
